import Mathlib

/-!
Shallow embedding of the `ctrl` chat-driven project registry
(`src/config/mod.rs`, `src/slack/mod.rs`, `src/slack/handler.rs`).

Rust `HashMap<String, V>` is embedded as an association list
`List (String × V)` whose order stands for the map's iteration order;
`HashMap::insert` replaces in place when the key is present and appends
otherwise, `remove` filters the key out, `values()` is the second
projection in list order.

Each Slack handler is embedded as a function from the persistent store
(the content of `manifest.toml`, `none` when the file is absent) to the
updated store together with an ordered trace of its observable effects.
An `Effect.respond` records a `respond_text` (or helper) call whose
future IS awaited, so the message is actually posted; an
`Effect.droppedRespond` records a `let _ = respond_text(...)` whose
future is constructed but never awaited — in Rust such a future is
dropped unpolled and no message is ever sent.  `Effect.write` records a
`write_manifest` call, in its position in the handler's control flow.
-/

namespace Ctrl

/-- `Project` from `src/config/mod.rs`. -/
structure Project where
  slack_channel : String
  github_repo : Option String
  project_owners : List String
  jira_project : Option String
deriving DecidableEq

/-- `Profile` from `src/config/mod.rs`. -/
structure Profile where
  github_username : String
deriving DecidableEq

/-- `Manifest` from `src/config/mod.rs`; the two `HashMap`s are embedded
as association lists in iteration order. -/
structure Manifest where
  projects : List (String × Project)
  managers : List String
  configured_project : String
  profiles : List (String × Profile)
deriving DecidableEq

/-- `HashMap::get`. -/
def lookupKey {α : Type} : List (String × α) → String → Option α
  | [], _ => none
  | (k, v) :: rest, key => if k = key then some v else lookupKey rest key

/-- `HashMap::contains_key`. -/
def containsKey {α : Type} (m : List (String × α)) (key : String) : Bool :=
  (lookupKey m key).isSome

/-- `HashMap::insert`: replaces the value in place when the key is
present, appends otherwise. -/
def insertKey {α : Type} (m : List (String × α)) (key : String) (v : α) :
    List (String × α) :=
  if containsKey m key then
    m.map (fun kv => if kv.1 = key then (key, v) else kv)
  else
    m ++ [(key, v)]

/-- `HashMap::remove` (the returned old value is unused by the code). -/
def eraseKey {α : Type} (m : List (String × α)) (key : String) :
    List (String × α) :=
  m.filter (fun kv => kv.1 ≠ key)

/-- `HashMap::values` in iteration order. -/
def valuesOf {α : Type} (m : List (String × α)) : List α :=
  m.map Prod.snd

/-- `Manifest::default()` from `src/config/mod.rs`. -/
def Manifest.defaultManifest : Manifest :=
  { projects := []
    managers := []
    configured_project := "amcwb/ctrl"
    profiles := [] }

/-- `get_user_by_slack_id` from `src/config/mod.rs`. -/
def get_user_by_slack_id (manifest : Manifest) (slack_id : String) :
    Option Profile :=
  lookupKey manifest.profiles slack_id

/-- `get_user_by_github_username` from `src/config/mod.rs`:
`profiles.values().find(...)`, first match in iteration order. -/
def get_user_by_github_username (manifest : Manifest)
    (github_username : String) : Option Profile :=
  (valuesOf manifest.profiles).find?
    (fun profile => profile.github_username = github_username)

/-- `set_user_github_username` from `src/config/mod.rs`. -/
def set_user_github_username (manifest : Manifest)
    (slack_id github_username : String) : Manifest :=
  { manifest with
    profiles := insertKey manifest.profiles slack_id ⟨github_username⟩ }

/-- `get_project_by_slack_channel` from `src/config/mod.rs`.  Note that
the body is `manifest.projects.get(slack_channel)`: a lookup of the
NAME-keyed map with the channel string as the key. -/
def get_project_by_slack_channel (manifest : Manifest)
    (slack_channel : String) : Option Project :=
  lookupKey manifest.projects slack_channel

/-- `get_project_by_github_repo` from `src/config/mod.rs`: a missing
`github_repo` is compared as the empty string
(`project.github_repo.as_ref().unwrap_or(&"".to_string())`). -/
def get_project_by_github_repo (manifest : Manifest) (github_repo : String) :
    Option Project :=
  (valuesOf manifest.projects).find?
    (fun project => project.github_repo.getD "" = github_repo)

/-- `get_project_by_jira_project` from `src/config/mod.rs`: a missing
`jira_project` is compared as the empty string. -/
def get_project_by_jira_project (manifest : Manifest) (jira_project : String) :
    Option Project :=
  (valuesOf manifest.projects).find?
    (fun project => project.jira_project.getD "" = jira_project)

/-- `get_project_by_name` from `src/config/mod.rs`. -/
def get_project_by_name (manifest : Manifest) (project_name : String) :
    Option Project :=
  lookupKey manifest.projects project_name

/-! ## Persistent store

`write_manifest` and `read_manifest` in `src/config/mod.rs` serialize
the whole Manifest to the single file `manifest.toml` through the
external `toml` crate, which is not part of this repository.  Following
§6 of the spec ("a single file holding the serialized Manifest
(structured text, human-diffable)"), the serialization is modelled as a
concrete line-oriented structured-text encoding carrying exactly the
fields of the persisted shape given there: `projects`, `managers`,
`configured_project`, `profiles`.  A file is a `List Char`; lines are
separated by `'\n'`; a list is encoded as a `"."` marker line before
each element and an empty terminator line; an optional field likewise
with at most one element.  The store itself is `Option (List Char)`:
`none` when `manifest.toml` is absent. -/

/-- Modelled from the spec: encoding of one optional string field. -/
def encOptLine : Option String → List (List Char)
  | none => [[]]
  | some s => [['.'], s.toList]

/-- Modelled from the spec: encoding of a list of strings. -/
def encStrList : List String → List (List Char)
  | [] => [[]]
  | s :: xs => ['.'] :: s.toList :: encStrList xs

/-- Modelled from the spec: encoding of one Project record
(`{channel, repository?, owners, tracker_project?}`). -/
def encProject (p : Project) : List (List Char) :=
  p.slack_channel.toList ::
    (encOptLine p.github_repo ++ encStrList p.project_owners ++
      encOptLine p.jira_project)

/-- Modelled from the spec: encoding of the name → Project map. -/
def encProjects : List (String × Project) → List (List Char)
  | [] => [[]]
  | (k, p) :: ps => ['.'] :: k.toList :: (encProject p ++ encProjects ps)

/-- Modelled from the spec: encoding of the chat-id → Profile map. -/
def encProfiles : List (String × Profile) → List (List Char)
  | [] => [[]]
  | (k, pr) :: ps => ['.'] :: k.toList :: pr.github_username.toList :: encProfiles ps

/-- Modelled from the spec: the lines of the serialized Manifest. -/
def manifestLines (m : Manifest) : List (List Char) :=
  m.configured_project.toList ::
    (encStrList m.managers ++ encProjects m.projects ++ encProfiles m.profiles)

/-- Modelled from the spec: the full serialized file content. -/
def serializeManifest (m : Manifest) : List Char :=
  List.intercalate ['\n'] (manifestLines m)

/-- Modelled from the spec: consume one raw line as a string field. -/
def pLine : List (List Char) → Option (String × List (List Char))
  | [] => none
  | l :: rest => some (String.mk l, rest)

/-- Modelled from the spec: consume one optional string field. -/
def pOptLine : List (List Char) → Option (Option String × List (List Char))
  | [] => none
  | l :: rest =>
    if l = ['.'] then
      match rest with
      | [] => none
      | s :: rest2 => some (some (String.mk s), rest2)
    else if l = [] then some (none, rest)
    else none

/-- Modelled from the spec: consume a list of strings. -/
def pStrList : List (List Char) → Option (List String × List (List Char))
  | [] => none
  | l :: rest =>
    if l = ['.'] then
      match rest with
      | [] => none
      | s :: rest2 =>
        match pStrList rest2 with
        | some (xs, r) => some (String.mk s :: xs, r)
        | none => none
    else if l = [] then some ([], rest)
    else none

/-- Modelled from the spec: consume one Project record. -/
def pProject (ls : List (List Char)) : Option (Project × List (List Char)) := do
  let (channel, r1) ← pLine ls
  let (repo, r2) ← pOptLine r1
  let (owners, r3) ← pStrList r2
  let (jira, r4) ← pOptLine r3
  some (⟨channel, repo, owners, jira⟩, r4)

/-- Modelled from the spec: consume the name → Project map (fuelled by
the number of remaining lines, decremented once per element). -/
def pProjects :
    Nat → List (List Char) → Option (List (String × Project) × List (List Char))
  | _, [] => none
  | 0, _ :: _ => none
  | fuel + 1, l :: rest =>
    if l = ['.'] then do
      let (name, r1) ← pLine rest
      let (proj, r2) ← pProject r1
      let (xs, r3) ← pProjects fuel r2
      some ((name, proj) :: xs, r3)
    else if l = [] then some ([], rest)
    else none

/-- Modelled from the spec: consume the chat-id → Profile map. -/
def pProfiles :
    List (List Char) → Option (List (String × Profile) × List (List Char))
  | [] => none
  | l :: rest =>
    if l = ['.'] then
      match rest with
      | k :: v :: rest2 =>
        match pProfiles rest2 with
        | some (xs, r) => some ((String.mk k, ⟨String.mk v⟩) :: xs, r)
        | none => none
      | _ => none
    else if l = [] then some ([], rest)
    else none

/-- Modelled from the spec: parse a whole file split into lines. -/
def parseManifestLines (ls : List (List Char)) : Option Manifest := do
  let (configured, r1) ← pLine ls
  let (managers, r2) ← pStrList r1
  let (projects, r3) ← pProjects r2.length r2
  let (profiles, r4) ← pProfiles r3
  match r4 with
  | [] => some ⟨projects, managers, configured, profiles⟩
  | _ :: _ => none

/-- Modelled from the spec: parse a whole file content. -/
def parseManifestContent (c : List Char) : Option Manifest :=
  parseManifestLines (c.splitOn '\n')

/-- A string is serializable when it contains no line separator. -/
def strOk (s : String) : Bool :=
  s.toList.all (fun c => c ≠ '\n')

/-- Serializability of an optional string field. -/
def optStrOk : Option String → Bool
  | none => true
  | some s => strOk s

/-- Serializability of a Project's fields. -/
def projectOk (p : Project) : Bool :=
  strOk p.slack_channel && optStrOk p.github_repo &&
    p.project_owners.all strOk && optStrOk p.jira_project

/-- A Manifest is well-formed for the store when every string field it
contains is free of the line separator. -/
def wellFormedManifest (m : Manifest) : Bool :=
  strOk m.configured_project && m.managers.all strOk &&
    m.projects.all (fun kp => strOk kp.1 && projectOk kp.2) &&
    m.profiles.all (fun kp => strOk kp.1 && strOk kp.2.github_username)

/-- `write_manifest` from `src/config/mod.rs`: serializes the full
Manifest and overwrites `manifest.toml` with it (the previous store
content is discarded); the serialization itself is the spec-modelled
encoding above. -/
def write_manifest (manifest : Manifest) : Option (List Char) :=
  some (serializeManifest manifest)

/-- `read_manifest` from `src/config/mod.rs`, as a transformer of the
store: when the file is absent it first writes the default Manifest;
then it reads the file and parses it, falling back to the default
Manifest when parsing fails (`unwrap_or(Default::default())`).  Returns
the Manifest together with the store after the call. -/
def read_manifest (store : Option (List Char)) :
    Manifest × Option (List Char) :=
  match store with
  | none =>
    let contents := serializeManifest Manifest.defaultManifest
    ((parseManifestContent contents).getD Manifest.defaultManifest,
      some contents)
  | some contents =>
    ((parseManifestContent contents).getD Manifest.defaultManifest,
      some contents)

/-- Modelled from the spec: `get_user_by_slack_mention` is imported by
`src/slack/handler.rs` from the config module but its definition is not
among the sources.  Per §4.3 the Identity Linker, "given a chat
identity, resolve the linked external username (or signal unlinked)",
so the mention resolves to the Profile linked to that chat identity
(the same lookup as `get_user_by_slack_id`). -/
def get_user_by_slack_mention (manifest : Manifest) (user_id : String) :
    Option Profile :=
  get_user_by_slack_id manifest user_id

/-! ## Slack handlers (`src/slack/handler.rs`)

Each handler is a function from the store to the updated store and an
ordered trace of observable `Effect`s.  A Rust `respond_text(...).await`
becomes `Effect.respond`; a `let _ = respond_text(...)` with no `.await`
drops the future unpolled, so no message is posted — it becomes
`Effect.droppedRespond`.  A `write_manifest(&m)` becomes `Effect.write m`
at its position in the control flow, and the returned store is the
store after all writes. -/

/-- Observable effects of a handler, in program order. -/
inductive Effect
  | respond (channel text : String)
  | droppedRespond (channel text : String)
  | write (manifest : Manifest)
deriving DecidableEq

/-- Text of `command_not_found` in `src/slack/handler.rs`. -/
def commandNotFoundText : String :=
  "Invalid command. Use `/ctrl help` for a list of commands."

/-- Text of `user_not_linked` in `src/slack/handler.rs`. -/
def userNotLinkedText : String :=
  "This user must link their GitHub account first. Use `/ctrl me github <github_username>`."

/-- Text of the `help` handler in `src/slack/handler.rs` (the `indoc!`
block with its indentation stripped). -/
def helpText : String :=
  "⛑️ Here's a simple help guide for all the commands available.\n\n- /ctrl help: Show this help guide.\n- /ctrl list: List all projects.\n- /ctrl project: Show information about the current channel's project.\n- /ctrl create <project_name>: Create a new project, automatically assigning it to this channel and adding you as a manager.\n- /ctrl add <@user>: Add a user as a manager to this project\n- /ctrl remove <@user>: Remove a user as a manager from this project\n- /ctrl github <repo_name>: Set the GitHub repository for this project (PRs will be automatically merged, assigned, etc.).\n- /ctrl me github <github_username>: Set your GitHub username.\n"

/-- `command_not_found`: an awaited `respond_text`. -/
def command_not_found (channel_id : String) : List Effect :=
  [Effect.respond channel_id commandNotFoundText]

/-- `user_not_linked`: an awaited `respond_text`. -/
def user_not_linked (channel_id : String) : List Effect :=
  [Effect.respond channel_id userNotLinkedText]

/-- `not_enough_arguments`: an awaited `respond_text`. -/
def not_enough_arguments (channel_id : String) : List Effect :=
  [Effect.respond channel_id
    "Not enough arguments. Use `/ctrl help` for a list of commands."]

/-- `help`: an awaited `respond_text` with the static help text. -/
def help (channel_id : String) : List Effect :=
  [Effect.respond channel_id helpText]

/-- `create` from `src/slack/handler.rs`.  The `AlreadyExists` branch
builds its `respond_text` future without `.await`ing it; the success
branch posts "created." (awaited) and only then calls
`write_manifest`. -/
def create (store : Option (List Char)) (channel_id project_name : String) :
    Option (List Char) × List Effect :=
  let (manifest, store1) := read_manifest store
  if containsKey manifest.projects project_name then
    (store1,
      [Effect.droppedRespond channel_id
        ("Project `" ++ project_name ++ "` already exists.")])
  else
    let manifest2 :=
      { manifest with
        projects :=
          insertKey manifest.projects project_name
            ⟨channel_id, none, [], none⟩ }
    (write_manifest manifest2,
      [Effect.respond channel_id
        ("Project `" ++ project_name ++ "` created."),
       Effect.write manifest2])

/-- `delete` from `src/slack/handler.rs`.  The `NotFound` branch drops
its response future; the success branch responds (awaited) and then
writes. -/
def delete (store : Option (List Char)) (channel_id project_name : String) :
    Option (List Char) × List Effect :=
  let (manifest, store1) := read_manifest store
  if containsKey manifest.projects project_name = false then
    (store1,
      [Effect.droppedRespond channel_id
        ("Project `" ++ project_name ++ "` does not exist.")])
  else
    let manifest2 :=
      { manifest with projects := eraseKey manifest.projects project_name }
    (write_manifest manifest2,
      [Effect.respond channel_id
        ("Project `" ++ project_name ++ "` deleted."),
       Effect.write manifest2])

/-- `add` from `src/slack/handler.rs`.  `contains_key` +
`get_mut(...).unwrap()` is embedded as one `lookupKey` match; the
`NotFound` and `AlreadyOwner` branches drop their response futures;
`user_not_linked` is awaited; the success branch pushes the owner,
responds (awaited) and then writes. -/
def add (store : Option (List Char))
    (channel_id project_name user_id : String) :
    Option (List Char) × List Effect :=
  let (manifest, store1) := read_manifest store
  match lookupKey manifest.projects project_name with
  | none =>
    (store1,
      [Effect.droppedRespond channel_id
        ("Project `" ++ project_name ++ "` does not exist.")])
  | some project =>
    match get_user_by_slack_mention manifest user_id with
    | none => (store1, user_not_linked channel_id)
    | some user =>
      if project.project_owners.contains user.github_username then
        (store1,
          [Effect.droppedRespond channel_id
            ("User `" ++ user_id ++ "` is already a manager of `" ++
              project_name ++ "`.")])
      else
        let manifest2 :=
          { manifest with
            projects :=
              insertKey manifest.projects project_name
                { project with
                  project_owners :=
                    project.project_owners ++ [user.github_username] } }
        (write_manifest manifest2,
          [Effect.respond channel_id
            ("User `" ++ user_id ++ "` added as a manager of `" ++
              project_name ++ "`."),
           Effect.write manifest2])

/-- `remove` from `src/slack/handler.rs`.  Symmetric to `add`; the
removal is `retain(|x| x != &user.github_username)`, i.e. a filter. -/
def remove (store : Option (List Char))
    (channel_id project_name user_id : String) :
    Option (List Char) × List Effect :=
  let (manifest, store1) := read_manifest store
  match lookupKey manifest.projects project_name with
  | none =>
    (store1,
      [Effect.droppedRespond channel_id
        ("Project `" ++ project_name ++ "` does not exist.")])
  | some project =>
    match get_user_by_slack_mention manifest user_id with
    | none => (store1, user_not_linked channel_id)
    | some user =>
      if project.project_owners.contains user.github_username = false then
        (store1,
          [Effect.droppedRespond channel_id
            ("User `" ++ user_id ++ "` is not a manager of `" ++
              project_name ++ "`.")])
      else
        let manifest2 :=
          { manifest with
            projects :=
              insertKey manifest.projects project_name
                { project with
                  project_owners :=
                    project.project_owners.filter
                      (fun x => x ≠ user.github_username) } }
        (write_manifest manifest2,
          [Effect.respond channel_id
            ("User `" ++ user_id ++ "` removed as a manager of `" ++
              project_name ++ "`."),
           Effect.write manifest2])

/-- `github` from `src/slack/handler.rs`.  The `NotFound` branch drops
its response future; the success branch sets the repository, writes the
manifest FIRST and then responds (awaited). -/
def github (store : Option (List Char))
    (channel_id project_name repo_name : String) :
    Option (List Char) × List Effect :=
  let (manifest, store1) := read_manifest store
  match lookupKey manifest.projects project_name with
  | none =>
    (store1,
      [Effect.droppedRespond channel_id
        ("Project `" ++ project_name ++ "` does not exist.")])
  | some project =>
    let manifest2 :=
      { manifest with
        projects :=
          insertKey manifest.projects project_name
            { project with github_repo := some repo_name } }
    (write_manifest manifest2,
      [Effect.write manifest2,
       Effect.respond channel_id
        ("GitHub repository `" ++ repo_name ++ "` set for `" ++
          project_name ++ "`.")])

/-- `me` from `src/slack/handler.rs`.  On subcommand `"github"` it
upserts the profile, responds (awaited) and then writes; any other
subcommand is `command_not_found`. -/
def me (store : Option (List Char))
    (channel_id user_id subcommand value : String) :
    Option (List Char) × List Effect :=
  if subcommand = "github" then
    let (manifest, _store1) := read_manifest store
    let manifest2 := set_user_github_username manifest user_id value
    (write_manifest manifest2,
      [Effect.respond channel_id
        ("GitHub username set to `" ++ value ++ "`."),
       Effect.write manifest2])
  else (store, command_not_found channel_id)

/-! ## Command router (`src/slack/mod.rs`) -/

/-- Rust's `str::split_whitespace`: split at whitespace, dropping empty
tokens. -/
def splitWhitespace (text : String) : List String :=
  ((text.toList.splitOnP (fun c => c.isWhitespace)).filter
    (fun w => w ≠ [])).map String.mk

/-- `on_slash_commands` from `src/slack/mod.rs`: tokenizes the command
text; an empty token list is `command_not_found`; then the verb is
matched — the match has exactly two arms, `"help"` and the catch-all
`command_not_found`. -/
def on_slash_commands (store : Option (List Char))
    (channel_id text : String) : Option (List Char) × List Effect :=
  let opts := splitWhitespace text
  match opts with
  | [] => (store, command_not_found channel_id)
  | command :: _args =>
    match command with
    | "help" => (store, help channel_id)
    | _ => (store, command_not_found channel_id)

/-! ## Round-trip lemmas for the store encoding -/

theorem mk_toList (s : String) : String.mk s.toList = s := rfl

theorem mk_data (s : String) : String.mk s.data = s := rfl

theorem pLine_cons (l : List Char) (rest : List (List Char)) :
    pLine (l :: rest) = some (String.mk l, rest) := rfl

theorem pOptLine_enc (o : Option String) (rest : List (List Char)) :
    pOptLine (encOptLine o ++ rest) = some (o, rest) := by
  cases o with
  | none => simp [encOptLine, pOptLine]
  | some s => simp [encOptLine, pOptLine, mk_toList]

theorem pStrList_enc (xs : List String) (rest : List (List Char)) :
    pStrList (encStrList xs ++ rest) = some (xs, rest) := by
  induction xs with
  | nil =>
    simp only [encStrList, List.cons_append, List.nil_append]
    unfold pStrList
    simp
  | cons s xs ih => simp [encStrList, pStrList, mk_toList, ih]

theorem pProfiles_enc (ps : List (String × Profile))
    (rest : List (List Char)) :
    pProfiles (encProfiles ps ++ rest) = some (ps, rest) := by
  induction ps with
  | nil =>
    simp only [encProfiles, List.cons_append, List.nil_append]
    unfold pProfiles
    simp
  | cons kp ps ih =>
    obtain ⟨k, pr⟩ := kp
    simp [encProfiles, pProfiles, mk_toList, ih]

theorem pProject_enc (p : Project) (rest : List (List Char)) :
    pProject (encProject p ++ rest) = some (p, rest) := by
  obtain ⟨chan, repo, owners, jira⟩ := p
  simp [encProject, pProject, pLine_cons, mk_toList, List.append_assoc,
    pOptLine_enc, pStrList_enc]

theorem pProjects_enc (ps : List (String × Project)) :
    ∀ (fuel : Nat) (rest : List (List Char)), ps.length < fuel →
      pProjects fuel (encProjects ps ++ rest) = some (ps, rest) := by
  induction ps with
  | nil =>
    intro fuel rest hfuel
    match fuel with
    | f + 1 => simp [encProjects, pProjects]
  | cons kp ps ih =>
    intro fuel rest hfuel
    obtain ⟨k, p⟩ := kp
    match fuel with
    | f + 1 =>
      have hf : ps.length < f := by
        simpa [Nat.succ_lt_succ_iff] using hfuel
      simp [encProjects, pProjects, pLine_cons, mk_toList, List.append_assoc,
        pProject_enc, ih f rest hf]

theorem length_lt_encProjects (ps : List (String × Project))
    (tail : List (List Char)) :
    ps.length < (encProjects ps ++ tail).length := by
  induction ps with
  | nil => simp [encProjects]
  | cons kp ps ih =>
    obtain ⟨k, p⟩ := kp
    simp only [encProjects, List.cons_append, List.length_cons,
      List.append_assoc]
    have : ps.length < (encProjects ps ++ tail).length := ih
    have hmono : (encProjects ps ++ tail).length ≤
        (encProject p ++ (encProjects ps ++ tail)).length := by
      simp
    omega

theorem parseManifestLines_enc (m : Manifest) :
    parseManifestLines (manifestLines m) = some m := by
  obtain ⟨ps, mans, conf, prs⟩ := m
  have h3 : pProjects (encProjects ps ++ encProfiles prs).length
      (encProjects ps ++ encProfiles prs) = some (ps, encProfiles prs) := by
    have := pProjects_enc ps (encProjects ps ++ encProfiles prs).length
      (encProfiles prs) (length_lt_encProjects ps (encProfiles prs))
    exact this
  have h4 : pProfiles (encProfiles prs ++ []) = some (prs, []) :=
    pProfiles_enc prs []
  rw [List.append_nil] at h4
  simp only [List.length_append] at h3
  simp [manifestLines, parseManifestLines, pLine_cons, mk_toList, mk_data,
    pStrList_enc, h3, h4]

theorem strOk_not_mem {s : String} (h : strOk s = true) :
    '\n' ∉ s.toList := by
  intro hmem
  have := List.all_eq_true.mp h '\n' hmem
  simp at this

theorem encOptLine_no_nl {o : Option String} (h : optStrOk o = true) :
    ∀ l ∈ encOptLine o, '\n' ∉ l := by
  cases o with
  | none => simp [encOptLine]
  | some s =>
    simp only [encOptLine, List.mem_cons, List.mem_singleton]
    rintro l (rfl | rfl | h')
    · simp
    · exact strOk_not_mem h
    · simp at h'

theorem encStrList_no_nl {xs : List String} (h : xs.all strOk = true) :
    ∀ l ∈ encStrList xs, '\n' ∉ l := by
  induction xs with
  | nil => simp [encStrList]
  | cons s xs ih =>
    simp only [List.all_cons, Bool.and_eq_true] at h
    simp only [encStrList, List.mem_cons]
    rintro l (rfl | rfl | h')
    · simp
    · exact strOk_not_mem h.1
    · exact ih h.2 l h'

theorem encProject_no_nl {p : Project} (h : projectOk p = true) :
    ∀ l ∈ encProject p, '\n' ∉ l := by
  obtain ⟨chan, repo, owners, jira⟩ := p
  simp only [projectOk, Bool.and_eq_true] at h
  obtain ⟨⟨⟨h1, h2⟩, h3⟩, h4⟩ := h
  simp only [encProject, List.mem_cons, List.mem_append]
  rintro l (rfl | ((h2' | h3') | h4'))
  · exact strOk_not_mem h1
  · exact encOptLine_no_nl h2 l h2'
  · exact encStrList_no_nl h3 l h3'
  · exact encOptLine_no_nl h4 l h4'

theorem encProjects_no_nl {ps : List (String × Project)}
    (h : ps.all (fun kp => strOk kp.1 && projectOk kp.2) = true) :
    ∀ l ∈ encProjects ps, '\n' ∉ l := by
  induction ps with
  | nil => simp [encProjects]
  | cons kp ps ih =>
    obtain ⟨k, p⟩ := kp
    simp only [List.all_cons, Bool.and_eq_true] at h
    simp only [encProjects, List.mem_cons]
    rintro l (rfl | rfl | h')
    · simp
    · exact strOk_not_mem h.1.1
    · rcases List.mem_append.mp h' with h'' | h''
      · exact encProject_no_nl h.1.2 l h''
      · exact ih h.2 l h''

theorem encProfiles_no_nl {ps : List (String × Profile)}
    (h : ps.all (fun kp => strOk kp.1 && strOk kp.2.github_username) = true) :
    ∀ l ∈ encProfiles ps, '\n' ∉ l := by
  induction ps with
  | nil => simp [encProfiles]
  | cons kp ps ih =>
    obtain ⟨k, pr⟩ := kp
    simp only [List.all_cons, Bool.and_eq_true] at h
    simp only [encProfiles, List.mem_cons]
    rintro l (rfl | rfl | rfl | h')
    · simp
    · exact strOk_not_mem h.1.1
    · exact strOk_not_mem h.1.2
    · exact ih h.2 l h'

theorem manifestLines_no_nl {m : Manifest}
    (h : wellFormedManifest m = true) : ∀ l ∈ manifestLines m, '\n' ∉ l := by
  simp only [wellFormedManifest, Bool.and_eq_true] at h
  obtain ⟨⟨⟨h1, h2⟩, h3⟩, h4⟩ := h
  simp only [manifestLines, List.mem_cons, List.mem_append]
  rintro l (rfl | ((h2' | h3') | h4'))
  · exact strOk_not_mem h1
  · exact encStrList_no_nl h2 l h2'
  · exact encProjects_no_nl h3 l h3'
  · exact encProfiles_no_nl h4 l h4'

/-- The decisive store fact: on well-formed Manifests the spec-modelled
serialization parses back to exactly the Manifest that was written. -/
theorem parse_serialize {m : Manifest} (h : wellFormedManifest m = true) :
    parseManifestContent (serializeManifest m) = some m := by
  have hsplit : (serializeManifest m).splitOn '\n' = manifestLines m := by
    apply List.splitOn_intercalate (manifestLines m) '\n' (manifestLines_no_nl h)
    simp [manifestLines]
  rw [parseManifestContent, hsplit, parseManifestLines_enc]

theorem read_manifest_some {m : Manifest} (h : wellFormedManifest m = true) :
    read_manifest (some (serializeManifest m)) =
      (m, some (serializeManifest m)) := by
  simp [read_manifest, parse_serialize h]

theorem read_after_write {m : Manifest} (h : wellFormedManifest m = true) :
    read_manifest (write_manifest m) = (m, write_manifest m) := by
  simp [write_manifest, read_manifest, parse_serialize h]

/-! ## Association-list lemmas -/

theorem lookupKey_mem {α : Type} {l : List (String × α)} {k : String} {v : α}
    (h : lookupKey l k = some v) : (k, v) ∈ l := by
  induction l with
  | nil => simp [lookupKey] at h
  | cons kv rest ih =>
    obtain ⟨k', v'⟩ := kv
    by_cases hk : k' = k
    · subst hk
      simp [lookupKey] at h
      subst h
      exact List.mem_cons_self _ _
    · simp [lookupKey, hk] at h
      exact List.mem_cons_of_mem _ (ih h)

theorem containsKey_eq_false_iff {α : Type} {l : List (String × α)}
    {k : String} : containsKey l k = false ↔ lookupKey l k = none := by
  unfold containsKey
  cases lookupKey l k <;> simp

theorem mem_insertKey {α : Type} {l : List (String × α)} {k : String} {v : α}
    {kv : String × α} (h : kv ∈ insertKey l k v) : kv ∈ l ∨ kv = (k, v) := by
  unfold insertKey at h
  by_cases hc : containsKey l k
  · rw [if_pos hc] at h
    rcases List.mem_map.mp h with ⟨kv0, hkv0, heq⟩
    by_cases hk : kv0.1 = k
    · right
      rw [← heq, if_pos hk]
    · left
      rw [← heq, if_neg hk]
      exact hkv0
  · rw [if_neg hc] at h
    rcases List.mem_append.mp h with h' | h'
    · exact Or.inl h'
    · right
      simpa using h'

theorem lookupKey_append_of_none {α : Type} {l l2 : List (String × α)}
    {k : String} (h : lookupKey l k = none) :
    lookupKey (l ++ l2) k = lookupKey l2 k := by
  induction l with
  | nil => simp
  | cons kv rest ih =>
    obtain ⟨k', v'⟩ := kv
    by_cases hk : k' = k
    · simp [lookupKey, hk] at h
    · simp only [lookupKey, if_neg hk] at h
      simp only [List.cons_append, lookupKey, if_neg hk]
      exact ih h

theorem map_replace_eq_self {α : Type} {l : List (String × α)} {k : String}
    {v : α} (h : containsKey l k = false) :
    l.map (fun kv => if kv.1 = k then (k, v) else kv) = l := by
  induction l with
  | nil => rfl
  | cons kv rest ih =>
    obtain ⟨k', v'⟩ := kv
    by_cases hk : k' = k
    · subst hk
      simp [containsKey, lookupKey] at h
    · have hrest : containsKey rest k = false := by
        rw [containsKey_eq_false_iff] at h ⊢
        simpa [lookupKey, hk] using h
      simp only [List.map_cons, List.cons.injEq]
      constructor
      · rw [if_neg hk]
      · exact ih hrest

theorem lookupKey_map_replace_self {α : Type} {l : List (String × α)}
    {k : String} (v : α) (hc : containsKey l k = true) :
    lookupKey (l.map (fun kv => if kv.1 = k then (k, v) else kv)) k = some v := by
  induction l with
  | nil => simp [containsKey, lookupKey] at hc
  | cons kv rest ih =>
    obtain ⟨k', v'⟩ := kv
    by_cases hk : k' = k
    · subst hk
      simp only [List.map_cons]
      simp only [Prod.fst, eq_self_iff_true, if_true]
      simp [lookupKey]
    · have hrest : containsKey rest k = true := by
        simpa [containsKey, lookupKey, hk] using hc
      simp only [List.map_cons]
      rw [if_neg hk]
      simp only [lookupKey, if_neg hk]
      exact ih hrest

theorem lookupKey_insertKey_self {α : Type} (l : List (String × α))
    (k : String) (v : α) : lookupKey (insertKey l k v) k = some v := by
  unfold insertKey
  by_cases hc : containsKey l k
  · rw [if_pos hc]
    exact lookupKey_map_replace_self v hc
  · rw [if_neg hc]
    rw [lookupKey_append_of_none (containsKey_eq_false_iff.mp (by simpa using hc))]
    simp [lookupKey]

theorem containsKey_not_mem_keys {α : Type} {l : List (String × α)}
    {k : String} (h : k ∉ l.map Prod.fst) : containsKey l k = false := by
  induction l with
  | nil => rfl
  | cons kv rest ih =>
    obtain ⟨k', v'⟩ := kv
    simp only [List.map_cons, List.mem_cons] at h
    push_neg at h
    rw [containsKey_eq_false_iff]
    simp only [lookupKey, if_neg (fun hh : k' = k => h.1 hh.symm)]
    rw [← containsKey_eq_false_iff]
    exact ih h.2

theorem insertKey_lookup_self {α : Type} {l : List (String × α)} {k : String}
    {v : α} (hnd : (l.map Prod.fst).Nodup) (h : lookupKey l k = some v) :
    insertKey l k v = l := by
  unfold insertKey
  rw [if_pos (by simp [containsKey, h])]
  induction l with
  | nil => simp [lookupKey] at h
  | cons kv rest ih =>
    obtain ⟨k', v'⟩ := kv
    simp only [List.map_cons, List.nodup_cons] at hnd
    by_cases hk : k' = k
    · subst hk
      simp [lookupKey] at h
      subst h
      simp only [List.map_cons, List.cons.injEq]
      refine ⟨by simp, ?_⟩
      exact map_replace_eq_self (containsKey_not_mem_keys hnd.1)
    · simp only [lookupKey, if_neg hk] at h
      simp only [List.map_cons, List.cons.injEq]
      refine ⟨by rw [if_neg hk], ?_⟩
      exact ih hnd.2 h

theorem insertKey_insertKey {α : Type} (l : List (String × α)) (k : String)
    (v v' : α) : insertKey (insertKey l k v) k v' = insertKey l k v' := by
  by_cases hc : containsKey l k
  · have hc2 : containsKey (insertKey l k v) k = true := by
      simp [containsKey, lookupKey_insertKey_self]
    unfold insertKey
    rw [if_pos hc, if_pos hc, if_pos (by simpa [insertKey, if_pos hc] using hc2)]
    rw [List.map_map]
    apply List.map_congr_left
    intro kv _
    by_cases hk : kv.1 = k <;> simp [hk]
  · have hone : lookupKey l k = none := containsKey_eq_false_iff.mp (by simpa using hc)
    have hc2 : containsKey (l ++ [(k, v)]) k = true := by
      simp [containsKey, lookupKey_append_of_none hone, lookupKey]
    unfold insertKey
    rw [if_neg hc, if_neg hc, if_pos hc2]
    rw [List.map_append, map_replace_eq_self (by simpa using hc)]
    simp

theorem mem_eraseKey {α : Type} {l : List (String × α)} {k : String}
    {kv : String × α} (h : kv ∈ eraseKey l k) : kv ∈ l :=
  List.mem_of_mem_filter h

/-! ## Well-formedness bookkeeping -/

theorem wf_projects {m : Manifest} (h : wellFormedManifest m = true) :
    m.projects.all (fun kp => strOk kp.1 && projectOk kp.2) = true := by
  simp only [wellFormedManifest, Bool.and_eq_true] at h
  exact h.1.2

theorem wf_profiles {m : Manifest} (h : wellFormedManifest m = true) :
    m.profiles.all (fun kp => strOk kp.1 && strOk kp.2.github_username) = true := by
  simp only [wellFormedManifest, Bool.and_eq_true] at h
  exact h.2

theorem wf_mem_project {m : Manifest} {k : String} {p : Project}
    (h : wellFormedManifest m = true) (hm : (k, p) ∈ m.projects) :
    strOk k = true ∧ projectOk p = true := by
  have := List.all_eq_true.mp (wf_projects h) (k, p) hm
  simpa [Bool.and_eq_true] using this

theorem wf_mem_profile {m : Manifest} {k : String} {pr : Profile}
    (h : wellFormedManifest m = true) (hm : (k, pr) ∈ m.profiles) :
    strOk k = true ∧ strOk pr.github_username = true := by
  have := List.all_eq_true.mp (wf_profiles h) (k, pr) hm
  simpa [Bool.and_eq_true] using this

theorem wf_set_projects {m : Manifest} {ps : List (String × Project)}
    (h : wellFormedManifest m = true)
    (hps : ps.all (fun kp => strOk kp.1 && projectOk kp.2) = true) :
    wellFormedManifest { m with projects := ps } = true := by
  simp only [wellFormedManifest, Bool.and_eq_true] at h ⊢
  exact ⟨⟨⟨h.1.1.1, h.1.1.2⟩, hps⟩, h.2⟩

theorem wf_insert_project {m : Manifest} {n : String} {p : Project}
    (h : wellFormedManifest m = true) (hn : strOk n = true)
    (hp : projectOk p = true) :
    wellFormedManifest { m with projects := insertKey m.projects n p } = true := by
  apply wf_set_projects h
  rw [List.all_eq_true]
  intro kp hkp
  rcases mem_insertKey hkp with hmem | rfl
  · exact List.all_eq_true.mp (wf_projects h) kp hmem
  · simp [hn, hp]

theorem projectOk_add_owner {p : Project} {g : String}
    (hp : projectOk p = true) (hg : strOk g = true) :
    projectOk { p with project_owners := p.project_owners ++ [g] } = true := by
  simp only [projectOk, Bool.and_eq_true] at hp ⊢
  refine ⟨⟨⟨hp.1.1.1, hp.1.1.2⟩, ?_⟩, hp.2⟩
  rw [List.all_eq_true]
  intro s hs
  rcases List.mem_append.mp hs with hs' | hs'
  · exact List.all_eq_true.mp hp.1.2 s hs'
  · have hsg : s = g := by simpa using hs'
    rw [hsg]
    exact hg

/-- The no-duplicate-owners invariant of §3 of the spec:
every project's `owners` list is duplicate-free. -/
def ownersInv (m : Manifest) : Prop :=
  ∀ kp ∈ m.projects, kp.2.project_owners.Nodup

/-! ## Concrete registries used in the claim theorems -/

/-- A registry holding one project `widgets` bound to channel `C`. -/
def mWidgetsC : Manifest :=
  { projects := [("widgets", ⟨"C", none, [], none⟩)]
    managers := []
    configured_project := "amcwb/ctrl"
    profiles := [] }

/-- A registry holding one project `gizmo` with no repository and no
tracker reference. -/
def mGizmoNone : Manifest :=
  { projects := [("gizmo", ⟨"D", none, [], none⟩)]
    managers := []
    configured_project := "amcwb/ctrl"
    profiles := [] }

/-- A registry exercising every field of the persisted shape. -/
def mFull : Manifest :=
  { projects :=
      [("widgets", ⟨"C", some "acme/widgets", ["alice", "bob"], some "JIRA"⟩),
       ("gizmo", ⟨"D", none, [], none⟩)]
    managers := ["root"]
    configured_project := "amcwb/ctrl"
    profiles := [("U1", ⟨"alice"⟩), ("U2", ⟨"bob"⟩)] }

/-- A registry where `U`'s linked username `g` already owns project `p`. -/
def mOwned : Manifest :=
  { projects := [("p", ⟨"C", none, ["g"], none⟩)]
    managers := []
    configured_project := "amcwb/ctrl"
    profiles := [("U", ⟨"g"⟩)] }

/-- A registry where `U` is linked to `g` and project `p` has no owners. -/
def mLinked : Manifest :=
  { projects := [("p", ⟨"C", none, [], none⟩)]
    managers := []
    configured_project := "amcwb/ctrl"
    profiles := [("U", ⟨"g"⟩)] }

/-! ## Claim theorems -/

set_option maxRecDepth 10000 in
/-- C1: contrary to the claim, the Command Router's verb match has only
the arm `"help"`: every other verb — including the claimed end-to-end
sequence `create widgets`, `github widgets acme/widgets`,
`delete widgets` — is answered by the invalid-command response, no
Registry operation runs, and the store is untouched.  Only `help` is
dispatched. -/
theorem router_dispatches_only_help :
    on_slash_commands none "C" "create widgets" =
      (none, [Effect.respond "C" commandNotFoundText]) ∧
    on_slash_commands none "C" "github widgets acme/widgets" =
      (none, [Effect.respond "C" commandNotFoundText]) ∧
    on_slash_commands none "C" "delete widgets" =
      (none, [Effect.respond "C" commandNotFoundText]) ∧
    on_slash_commands none "C" "help" = (none, help "C") := by
  decide

/-- C2: contrary to the claim, `get_project_by_slack_channel` looks the
channel string up as a key of the NAME-keyed project map: on a registry
whose only project `widgets` is bound to channel `C`, querying channel
`C` returns nothing although a project with that channel exists, while
querying the project NAME `widgets` returns the project — whose channel
field is `C`, not `widgets`. -/
theorem channel_lookup_is_name_lookup :
    get_project_by_slack_channel mWidgetsC "C" = none ∧
    (∃ kp ∈ mWidgetsC.projects, kp.2.slack_channel = "C") ∧
    get_project_by_slack_channel mWidgetsC "widgets" =
      some ⟨"C", none, [], none⟩ := by
  decide

/-- C3: contrary to the claim, `create` posts its success response
BEFORE calling `write_manifest`: in the effect trace of a successful
`create widgets` the awaited success respond occupies position 0 and
the store write position 1, so a save failure would occur only after
the user was already told the command succeeded. -/
theorem create_success_response_precedes_write :
    (create (some (serializeManifest Manifest.defaultManifest)) "C"
        "widgets").2 =
      [Effect.respond "C" "Project `widgets` created.",
       Effect.write mWidgetsC] := by
  decide

/-- C4: contrary to the claim, the `AlreadyExists` and `NotFound`
failure branches build their `respond_text` future without `.await`ing
it, so the future is dropped and no user-visible message is delivered:
the whole effect trace is a single dropped response (and the store is
untouched). -/
theorem domain_failure_response_not_delivered :
    create (some (serializeManifest mWidgetsC)) "C" "widgets" =
      (some (serializeManifest mWidgetsC),
        [Effect.droppedRespond "C" "Project `widgets` already exists."]) ∧
    add (some (serializeManifest mWidgetsC)) "C" "gizmo" "U1" =
      (some (serializeManifest mWidgetsC),
        [Effect.droppedRespond "C" "Project `gizmo` does not exist."]) := by
  decide

/-- C8: the store round-trip is lossless: saving any well-formed
Manifest and loading again returns exactly the Manifest that was saved,
and leaves the store holding its serialization. -/
theorem store_roundtrip (m : Manifest) (hwf : wellFormedManifest m = true) :
    read_manifest (write_manifest m) = (m, write_manifest m) :=
  read_after_write hwf

/-- C8 witness: the round-trip at a registry populating every defined
field (projects with channel, set and unset repository and tracker
references, owners; managers; configured-project; profiles). -/
theorem store_roundtrip_witness :
    read_manifest (write_manifest mFull) = (mFull, write_manifest mFull) :=
  store_roundtrip mFull (by decide)

/-- C9: `read_manifest` never fails its caller: with no persisted state
it persists the default Manifest (empty projects, profiles and
managers, the fixed configured-project identifier `amcwb/ctrl`) and
returns it; with persisted state that fails to parse it returns the
default Manifest. -/
theorem read_manifest_total :
    read_manifest none =
      (Manifest.defaultManifest,
        some (serializeManifest Manifest.defaultManifest)) ∧
    Manifest.defaultManifest.projects = [] ∧
    Manifest.defaultManifest.profiles = [] ∧
    Manifest.defaultManifest.managers = [] ∧
    Manifest.defaultManifest.configured_project = "amcwb/ctrl" ∧
    ∀ contents : List Char, parseManifestContent contents = none →
      read_manifest (some contents) = (Manifest.defaultManifest, some contents) := by
  refine ⟨?_, rfl, rfl, rfl, rfl, ?_⟩
  · simp [read_manifest,
      parse_serialize (show wellFormedManifest Manifest.defaultManifest = true by decide)]
  · intro contents hc
    simp [read_manifest, hc]

/-- C9 witness: `['x']` is unparseable content, and loading it yields
the default Manifest. -/
theorem read_manifest_total_witness :
    read_manifest (some ['x']) = (Manifest.defaultManifest, some ['x']) :=
  read_manifest_total.2.2.2.2.2 ['x'] (by decide)

/-- C10: a project whose repository (resp. tracker) reference is unset
is matched by the empty-string query: the lookup compares a missing
reference as the empty string, so whenever the registry holds such a
project, lookup by `""` returns a project whose reference is likewise
empty-or-missing. -/
theorem missing_reference_matches_empty (m : Manifest) (p : Project)
    (hmem : p ∈ valuesOf m.projects) :
    (p.github_repo = none →
      ∃ p', get_project_by_github_repo m "" = some p' ∧
        p'.github_repo.getD "" = "") ∧
    (p.jira_project = none →
      ∃ p', get_project_by_jira_project m "" = some p' ∧
        p'.jira_project.getD "" = "") := by
  constructor
  · intro hrepo
    unfold get_project_by_github_repo
    have hsome :
        ((valuesOf m.projects).find?
          (fun project => project.github_repo.getD "" = "")).isSome := by
      rw [List.find?_isSome]
      exact ⟨p, hmem, by simp [hrepo]⟩
    rcases Option.isSome_iff_exists.mp hsome with ⟨p', hp'⟩
    refine ⟨p', hp', ?_⟩
    have := List.find?_some hp'
    simpa using this
  · intro hjira
    unfold get_project_by_jira_project
    have hsome :
        ((valuesOf m.projects).find?
          (fun project => project.jira_project.getD "" = "")).isSome := by
      rw [List.find?_isSome]
      exact ⟨p, hmem, by simp [hjira]⟩
    rcases Option.isSome_iff_exists.mp hsome with ⟨p', hp'⟩
    refine ⟨p', hp', ?_⟩
    have := List.find?_some hp'
    simpa using this

/-- C10 witness: on a registry whose only project has no repository and
no tracker reference, the empty-string lookups return it. -/
theorem missing_reference_matches_empty_witness :
    (∃ p', get_project_by_github_repo mGizmoNone "" = some p' ∧
      p'.github_repo.getD "" = "") ∧
    (∃ p', get_project_by_jira_project mGizmoNone "" = some p' ∧
      p'.jira_project.getD "" = "") :=
  ⟨(missing_reference_matches_empty mGizmoNone ⟨"D", none, [], none⟩
      (by decide)).1 (by decide),
   (missing_reference_matches_empty mGizmoNone ⟨"D", none, [], none⟩
      (by decide)).2 (by decide)⟩


theorem owners_filter_append {xs : List String} {g : String} (h : g ∉ xs) :
    (xs ++ [g]).filter (fun x => x ≠ g) = xs := by
  rw [List.filter_append]
  simp only [List.filter_cons, List.filter_nil]
  simp
  intro a ha hh
  exact h (hh ▸ ha)

/-- The Manifest written by a successful AddOwner: the named project's
owners list gains `g` at the end. -/
def addOwnerResult (m : Manifest) (n : String) (p : Project) (g : String) :
    Manifest :=
  { m with
    projects :=
      insertKey m.projects n
        { p with project_owners := p.project_owners ++ [g] } }

theorem add_notfound {m : Manifest} (c n u : String)
    (hwf : wellFormedManifest m = true)
    (hp : lookupKey m.projects n = none) :
    add (some (serializeManifest m)) c n u =
      (some (serializeManifest m),
       [Effect.droppedRespond c ("Project `" ++ n ++ "` does not exist.")]) := by
  simp [add, read_manifest_some hwf, hp]

theorem add_unlinked {m : Manifest} (c n u : String) {p : Project}
    (hwf : wellFormedManifest m = true)
    (hp : lookupKey m.projects n = some p)
    (hu : get_user_by_slack_mention m u = none) :
    add (some (serializeManifest m)) c n u =
      (some (serializeManifest m), [Effect.respond c userNotLinkedText]) := by
  simp [add, read_manifest_some hwf, hp, hu, user_not_linked]

theorem add_already {m : Manifest} (c n u : String) {p : Project}
    {prof : Profile} (hwf : wellFormedManifest m = true)
    (hp : lookupKey m.projects n = some p)
    (hu : get_user_by_slack_mention m u = some prof)
    (hmem : prof.github_username ∈ p.project_owners) :
    add (some (serializeManifest m)) c n u =
      (some (serializeManifest m),
       [Effect.droppedRespond c
         ("User `" ++ u ++ "` is already a manager of `" ++ n ++ "`.")]) := by
  have hcont : p.project_owners.contains prof.github_username = true := by
    simpa using hmem
  simp [add, read_manifest_some hwf, hp, hu, hcont]
  exact hmem

theorem add_success {m : Manifest} (c n u : String) {p : Project}
    {prof : Profile} (hwf : wellFormedManifest m = true)
    (hp : lookupKey m.projects n = some p)
    (hu : get_user_by_slack_mention m u = some prof)
    (hng : prof.github_username ∉ p.project_owners) :
    add (some (serializeManifest m)) c n u =
      (some (serializeManifest (addOwnerResult m n p prof.github_username)),
       [Effect.respond c
         ("User `" ++ u ++ "` added as a manager of `" ++ n ++ "`."),
        Effect.write (addOwnerResult m n p prof.github_username)]) := by
  have hcont : p.project_owners.contains prof.github_username = false := by
    simpa using hng
  simp [add, read_manifest_some hwf, hp, hu, hcont, addOwnerResult,
    write_manifest]
  exact hng

theorem remove_success {m : Manifest} (c n u : String) {p : Project}
    {prof : Profile} (hwf : wellFormedManifest m = true)
    (hp : lookupKey m.projects n = some p)
    (hu : get_user_by_slack_mention m u = some prof)
    (hmem : prof.github_username ∈ p.project_owners) :
    remove (some (serializeManifest m)) c n u =
      (some (serializeManifest
        { m with
          projects :=
            insertKey m.projects n
              { p with
                project_owners :=
                  p.project_owners.filter
                    (fun x => x ≠ prof.github_username) } }),
       [Effect.respond c
         ("User `" ++ u ++ "` removed as a manager of `" ++ n ++ "`."),
        Effect.write
          { m with
            projects :=
              insertKey m.projects n
                { p with
                  project_owners :=
                    p.project_owners.filter
                      (fun x => x ≠ prof.github_username) } }]) := by
  have hcont : p.project_owners.contains prof.github_username = true := by
    simpa using hmem
  simp [remove, read_manifest_some hwf, hp, hu, hcont, write_manifest]
  exact hmem

theorem wf_addOwnerResult {m : Manifest} {n : String} {p : Project}
    {g : String} (hwf : wellFormedManifest m = true)
    (hp : lookupKey m.projects n = some p) (hg : strOk g = true) :
    wellFormedManifest (addOwnerResult m n p g) = true := by
  have hmem := lookupKey_mem hp
  exact wf_insert_project hwf (wf_mem_project hwf hmem).1
    (projectOk_add_owner (wf_mem_project hwf hmem).2 hg)

/-- C7 (amended): when the target's linked username is not yet an owner
— i.e. when the AddOwner succeeds — AddOwner then RemoveOwner restores
the persisted Manifest exactly, so the owners list equals what it was
before the AddOwner and nothing else in the Manifest changed. -/
theorem add_remove_roundtrip (m : Manifest) (c n u : String) (p : Project)
    (prof : Profile) (hwf : wellFormedManifest m = true)
    (hnd : (m.projects.map Prod.fst).Nodup)
    (hp : lookupKey m.projects n = some p)
    (hu : get_user_by_slack_mention m u = some prof)
    (hng : prof.github_username ∉ p.project_owners) :
    (remove ((add (some (serializeManifest m)) c n u).1) c n u).1 =
      some (serializeManifest m) := by
  have hprofmem : (u, prof) ∈ m.profiles := lookupKey_mem hu
  have hg : strOk prof.github_username = true := (wf_mem_profile hwf hprofmem).2
  have hwf2 : wellFormedManifest (addOwnerResult m n p prof.github_username) = true :=
    wf_addOwnerResult hwf hp hg
  rw [add_success c n u hwf hp hu hng]
  have hp2 : lookupKey (addOwnerResult m n p prof.github_username).projects n =
      some { p with project_owners := p.project_owners ++ [prof.github_username] } :=
    lookupKey_insertKey_self _ _ _
  have hu2 : get_user_by_slack_mention (addOwnerResult m n p prof.github_username) u =
      some prof := hu
  have hmem2 : prof.github_username ∈
      ({ p with project_owners := p.project_owners ++ [prof.github_username] } :
        Project).project_owners := by
    simp
  rw [remove_success c n u hwf2 hp2 hu2 hmem2]
  simp only [addOwnerResult]
  rw [insertKey_insertKey]
  have hcollapse :
      ({ { p with project_owners := p.project_owners ++ [prof.github_username] } with
          project_owners :=
            ({ p with project_owners := p.project_owners ++ [prof.github_username] } :
              Project).project_owners.filter
                (fun x => x ≠ prof.github_username) } : Project) = p := by
    have h1 : ({ p with project_owners := p.project_owners ++ [prof.github_username] } :
        Project).project_owners.filter (fun x => x ≠ prof.github_username) =
        p.project_owners := by
      simpa using owners_filter_append hng
    rw [h1]
  rw [hcollapse, insertKey_lookup_self hnd hp]

/-- C7 witness for the amended round trip: `U` linked to `g`, project
`p` initially without owners. -/
theorem add_remove_roundtrip_witness :
    (remove ((add (some (serializeManifest mLinked)) "C" "p" "U").1) "C" "p" "U").1 =
      some (serializeManifest mLinked) :=
  add_remove_roundtrip mLinked "C" "p" "U" ⟨"C", none, [], none⟩ ⟨"g"⟩
    (by decide) (by decide) (by decide) (by decide) (by decide)

/-- C7 counterexample: when the target's linked username ALREADY owns
the project, AddOwner fails with AlreadyOwner (no state change) and
RemoveOwner then removes the pre-existing entry: the final owners list
for `p` is `[]` although it was `["g"]` before the AddOwner — the
round trip does not restore the owners list. -/
theorem add_remove_not_roundtrip_on_owner :
    (lookupKey (read_manifest
        ((remove ((add (some (serializeManifest mOwned)) "C" "p" "U").1)
          "C" "p" "U").1)).1.projects "p").map
      (fun q => q.project_owners) = some [] ∧
    (lookupKey mOwned.projects "p").map (fun q => q.project_owners) =
      some ["g"] := by
  decide



/-- C5: `create` on a fresh name appends a project bound to the
invoking channel with empty owners and unset repository/tracker, and
lookup of the name in the written registry returns exactly that
project; `create` on a taken name takes the `AlreadyExists` branch and
leaves the registry state identical. -/
theorem create_spec (m : Manifest) (c n : String)
    (hwf : wellFormedManifest m = true) :
    (containsKey m.projects n = false →
      create (some (serializeManifest m)) c n =
        (some (serializeManifest
          { m with projects := m.projects ++ [(n, ⟨c, none, [], none⟩)] }),
         [Effect.respond c ("Project `" ++ n ++ "` created."),
          Effect.write
            { m with projects := m.projects ++ [(n, ⟨c, none, [], none⟩)] }]) ∧
      get_project_by_name
        { m with projects := m.projects ++ [(n, ⟨c, none, [], none⟩)] } n =
        some ⟨c, none, [], none⟩) ∧
    (containsKey m.projects n = true →
      create (some (serializeManifest m)) c n =
        (some (serializeManifest m),
         [Effect.droppedRespond c ("Project `" ++ n ++ "` already exists.")])) := by
  constructor
  · intro hn
    constructor
    · simp [create, read_manifest_some hwf, hn, insertKey, write_manifest]
    · unfold get_project_by_name
      rw [show ({ m with
            projects := m.projects ++ [(n, ⟨c, none, [], none⟩)] } :
              Manifest).projects = m.projects ++ [(n, ⟨c, none, [], none⟩)]
          from rfl]
      rw [lookupKey_append_of_none (containsKey_eq_false_iff.mp hn)]
      simp [lookupKey]
  · intro hn
    simp [create, read_manifest_some hwf, hn]

/-- C5 witness: creating `widgets` on the empty default registry
succeeds and yields `mWidgetsC`; creating it again on `mWidgetsC`
takes the `AlreadyExists` branch and leaves the store unchanged. -/
theorem create_spec_witness :
    create (some (serializeManifest Manifest.defaultManifest)) "C" "widgets" =
      (some (serializeManifest mWidgetsC),
       [Effect.respond "C" "Project `widgets` created.",
        Effect.write mWidgetsC]) ∧
    create (some (serializeManifest mWidgetsC)) "C" "widgets" =
      (some (serializeManifest mWidgetsC),
       [Effect.droppedRespond "C" "Project `widgets` already exists."]) := by
  constructor
  · exact ((create_spec Manifest.defaultManifest "C" "widgets"
      (by decide)).1 (by decide)).1
  · exact (create_spec mWidgetsC "C" "widgets" (by decide)).2 (by decide)



theorem ownersInv_insert {m : Manifest} {n : String} {p : Project}
    (hinv : ownersInv m) (hnodup : p.project_owners.Nodup) :
    ownersInv { m with projects := insertKey m.projects n p } := by
  intro kp hkp
  rcases mem_insertKey hkp with hmem | rfl
  · exact hinv kp hmem
  · exact hnodup

/-- C6: `add` fails with NotFound when the project is absent, with
Unlinked when the target chat identity has no Profile, with
AlreadyOwner when the linked username is already an owner, and
otherwise appends the username; a second identical `add` then takes
the AlreadyOwner branch with the store unchanged and the owners list
holding exactly one entry for that username; and every mutating
handler preserves the no-duplicate-owners invariant: whatever Manifest
any of them writes satisfies it whenever the loaded one did. -/
theorem add_owner_spec (m : Manifest) (c n u : String)
    (hwf : wellFormedManifest m = true) :
    (lookupKey m.projects n = none →
      add (some (serializeManifest m)) c n u =
        (some (serializeManifest m),
         [Effect.droppedRespond c ("Project `" ++ n ++ "` does not exist.")])) ∧
    (∀ p, lookupKey m.projects n = some p →
      (get_user_by_slack_mention m u = none →
        add (some (serializeManifest m)) c n u =
          (some (serializeManifest m), [Effect.respond c userNotLinkedText])) ∧
      (∀ prof, get_user_by_slack_mention m u = some prof →
        (prof.github_username ∈ p.project_owners →
          add (some (serializeManifest m)) c n u =
            (some (serializeManifest m),
             [Effect.droppedRespond c
               ("User `" ++ u ++ "` is already a manager of `" ++ n ++ "`.")])) ∧
        (prof.github_username ∉ p.project_owners →
          add (some (serializeManifest m)) c n u =
            (some (serializeManifest
              (addOwnerResult m n p prof.github_username)),
             [Effect.respond c
               ("User `" ++ u ++ "` added as a manager of `" ++ n ++ "`."),
              Effect.write (addOwnerResult m n p prof.github_username)]) ∧
          add (some (serializeManifest
              (addOwnerResult m n p prof.github_username))) c n u =
            (some (serializeManifest
              (addOwnerResult m n p prof.github_username)),
             [Effect.droppedRespond c
               ("User `" ++ u ++ "` is already a manager of `" ++ n ++ "`.")]) ∧
          (lookupKey (addOwnerResult m n p prof.github_username).projects
              n).map
            (fun q => q.project_owners.count prof.github_username) =
            some 1))) ∧
    (ownersInv m →
      (∀ m', Effect.write m' ∈ (create (some (serializeManifest m)) c n).2 →
        ownersInv m') ∧
      (∀ m', Effect.write m' ∈ (delete (some (serializeManifest m)) c n).2 →
        ownersInv m') ∧
      (∀ m', Effect.write m' ∈ (add (some (serializeManifest m)) c n u).2 →
        ownersInv m') ∧
      (∀ m', Effect.write m' ∈ (remove (some (serializeManifest m)) c n u).2 →
        ownersInv m') ∧
      (∀ r m', Effect.write m' ∈ (github (some (serializeManifest m)) c n r).2 →
        ownersInv m') ∧
      (∀ sub v m', Effect.write m' ∈ (me (some (serializeManifest m)) c u sub v).2 →
        ownersInv m')) := by
  refine ⟨?_, ?_, ?_⟩
  · intro hlp
    exact add_notfound c n u hwf hlp
  · intro p hp
    refine ⟨?_, ?_⟩
    · intro hu
      exact add_unlinked c n u hwf hp hu
    · intro prof hu
      refine ⟨?_, ?_⟩
      · intro hmem
        exact add_already c n u hwf hp hu hmem
      · intro hng
        have hg : strOk prof.github_username = true :=
          (wf_mem_profile hwf
            (lookupKey_mem (show lookupKey m.profiles u = some prof from hu))).2
        have hwf2 := wf_addOwnerResult hwf hp hg
        have hp2 : lookupKey (addOwnerResult m n p prof.github_username).projects n =
            some { p with
              project_owners := p.project_owners ++ [prof.github_username] } :=
          lookupKey_insertKey_self _ _ _
        have hu2 : get_user_by_slack_mention
            (addOwnerResult m n p prof.github_username) u = some prof := hu
        have hmem2 : prof.github_username ∈
            ({ p with
              project_owners := p.project_owners ++ [prof.github_username] } :
                Project).project_owners := by
          simp
        refine ⟨add_success c n u hwf hp hu hng,
          add_already c n u hwf2 hp2 hu2 hmem2, ?_⟩
        rw [hp2]
        simp [List.count_append, List.count_eq_zero]
        exact hng
  · intro hinv
    refine ⟨?_, ?_, ?_, ?_, ?_, ?_⟩
    · intro m' hm'
      by_cases hc : containsKey m.projects n = true
      · simp [create, read_manifest_some hwf, hc] at hm'
      · simp at hc
        simp [create, read_manifest_some hwf, hc] at hm'
        subst hm'
        exact ownersInv_insert hinv List.nodup_nil
    · intro m' hm'
      by_cases hc : containsKey m.projects n = true
      · simp [delete, read_manifest_some hwf, hc] at hm'
        subst hm'
        intro kp hkp
        exact hinv kp (mem_eraseKey hkp)
      · simp at hc
        simp [delete, read_manifest_some hwf, hc] at hm'
    · intro m' hm'
      rcases hlp : lookupKey m.projects n with _ | p
      · simp [add, read_manifest_some hwf, hlp] at hm'
      · rcases hlu : get_user_by_slack_mention m u with _ | prof
        · simp [add, read_manifest_some hwf, hlp, hlu, user_not_linked] at hm'
        · by_cases hmem : prof.github_username ∈ p.project_owners
          · have hcont : p.project_owners.contains prof.github_username = true := by
              simpa using hmem
            simp [add, read_manifest_some hwf, hlp, hlu, hcont, hmem] at hm'
          · have hcont : p.project_owners.contains prof.github_username = false := by
              simpa using hmem
            simp [add, read_manifest_some hwf, hlp, hlu, hcont, hmem] at hm'
            subst hm'
            apply ownersInv_insert hinv
            have hnd : p.project_owners.Nodup := hinv (n, p) (lookupKey_mem hlp)
            simp [List.nodup_append, hnd, hmem]
    · intro m' hm'
      rcases hlp : lookupKey m.projects n with _ | p
      · simp [remove, read_manifest_some hwf, hlp] at hm'
      · rcases hlu : get_user_by_slack_mention m u with _ | prof
        · simp [remove, read_manifest_some hwf, hlp, hlu, user_not_linked] at hm'
        · by_cases hmem : prof.github_username ∈ p.project_owners
          · have hcont : p.project_owners.contains prof.github_username = true := by
              simpa using hmem
            simp [remove, read_manifest_some hwf, hlp, hlu, hcont, hmem] at hm'
            subst hm'
            apply ownersInv_insert hinv
            exact (hinv (n, p) (lookupKey_mem hlp)).filter _
          · have hcont : p.project_owners.contains prof.github_username = false := by
              simpa using hmem
            simp [remove, read_manifest_some hwf, hlp, hlu, hcont, hmem] at hm'
    · intro r m' hm'
      rcases hlp : lookupKey m.projects n with _ | p
      · simp [github, read_manifest_some hwf, hlp] at hm'
      · simp [github, read_manifest_some hwf, hlp] at hm'
        subst hm'
        apply ownersInv_insert hinv
        exact hinv (n, p) (lookupKey_mem hlp)
    · intro sub v m' hm'
      by_cases hsub : sub = "github"
      · simp [me, hsub, read_manifest_some hwf, set_user_github_username] at hm'
        subst hm'
        intro kp hkp
        exact hinv kp hkp
      · simp [me, hsub, command_not_found] at hm'

/-- C6 witness: on `mLinked` (project `p` without owners, `U` linked to
`g`) the success branch applies: the first `add` appends `g`, the
second returns the AlreadyOwner response with the store unchanged, and
the owners list then counts `g` exactly once. -/
theorem add_owner_spec_witness :
    add (some (serializeManifest mLinked)) "C" "p" "U" =
      (some (serializeManifest
        (addOwnerResult mLinked "p" ⟨"C", none, [], none⟩ "g")),
       [Effect.respond "C" "User `U` added as a manager of `p`.",
        Effect.write (addOwnerResult mLinked "p" ⟨"C", none, [], none⟩ "g")]) ∧
    add (some (serializeManifest
        (addOwnerResult mLinked "p" ⟨"C", none, [], none⟩ "g"))) "C" "p" "U" =
      (some (serializeManifest
        (addOwnerResult mLinked "p" ⟨"C", none, [], none⟩ "g")),
       [Effect.droppedRespond "C" "User `U` is already a manager of `p`."]) ∧
    (lookupKey (addOwnerResult mLinked "p" ⟨"C", none, [], none⟩ "g").projects
        "p").map (fun q => q.project_owners.count "g") = some 1 := by
  have h := ((add_owner_spec mLinked "C" "p" "U" (by decide)).2.1
    ⟨"C", none, [], none⟩ (by decide)).2 ⟨"g"⟩ (by decide) |>.2 (by decide)
  exact ⟨h.1, h.2.1, h.2.2⟩


end Ctrl
